import Mathlib

/-!
Verification development for the `ghp` GitHub reverse proxy.

The definitions below are a shallow embedding of the Go source:
`internal/token` (token service), `internal/proxy` (reverse proxy handler
and endpoint scope table), `internal/database` (store semantics of the
SQLite backend), `internal/auth` (session lookup, user upsert inputs) and
`internal/crypto` (encrypt/decrypt plumbing).

Conventions:
- Machine time instants are modelled as `Nat` (nanoseconds since epoch);
  Go `time.Time.After t` becomes `now > t`.
- Go maps used as sets of scopes are modelled as association lists with
  first-match lookup.
- Randomness (token bytes, nonces) is passed in as an explicit argument.
- The SHA-256 digest and the AES-256-GCM AEAD live in the Go standard
  library, outside this repository; they are abstracted as function
  parameters, with their contracts stated as hypotheses where a claim
  needs them.
- Case folding (`strings.EqualFold`, `strings.ToLower`) is modelled for
  the ASCII range, where it coincides with Go's Unicode simple folding;
  all repository names and HTTP schemes involved are ASCII.
-/

namespace Ghp

/-! ## String utilities (mirroring the Go `strings` package usages) -/

/-- ASCII lower-casing of one character, as used by `strings.ToLower` /
`strings.EqualFold` on the ASCII inputs that occur here. -/
def lowerChar (c : Char) : Char :=
  if 'A' ≤ c ∧ c ≤ 'Z' then Char.ofNat (c.toNat + 32) else c

/-- Model of `strings.EqualFold a b` restricted to ASCII folding. -/
def eqFold (a b : String) : Bool :=
  a.toList.map lowerChar = b.toList.map lowerChar

/-- Model of `strings.ToLower` restricted to ASCII folding. -/
def toLowerStr (s : String) : String :=
  String.mk (s.toList.map lowerChar)

/-- Model of `strings.HasPrefix s p`. -/
def hasPfx (s p : String) : Bool :=
  p.toList.isPrefixOf s.toList

/-- Model of `strings.TrimPrefix s p` (drops `p` when it is a prefix). -/
def trimPfx (s p : String) : String :=
  if hasPfx s p then String.mk (s.toList.drop p.toList.length) else s

/-- Helper for `strings.SplitN s sep n` with a one-character separator:
`n` is the number of substrings still allowed; while more than one is
allowed, a separator ends the current chunk, otherwise it is kept. -/
def splitNAux (sep : Char) : List Char → List Char → Nat → List String
  | [], acc, _ => [String.mk acc.reverse]
  | c :: cs, acc, n =>
    if c = sep ∧ 1 < n then
      String.mk acc.reverse :: splitNAux sep cs [] (n - 1)
    else
      splitNAux sep cs (c :: acc) n

/-- Model of `strings.SplitN s sep n` for a one-character separator and
`n > 0` (the only use in the source is `strings.SplitN(_, "/", 4)` and
`strings.SplitN(_, " ", 2)`). -/
def splitN (s : String) (sep : Char) (n : Nat) : List String :=
  splitNAux sep s.toList [] n

/-- Model of `strings.Split s sep` for a one-character separator
(unbounded `SplitN`). -/
def splitAll (s : String) (sep : Char) : List String :=
  splitNAux sep s.toList [] (s.toList.length + 1)

/-! ## Data model (internal/database models) -/

/-- Scope map of a proxy token, `permission -> level`; the Go
`database.Scopes` map is modelled as an association list (the JSON object
stored in `proxy_tokens.scopes` has unique keys). -/
def ScopesM := List (String × String)

/-- Model of `database.ProxyToken` (the `proxy_tokens` row). The JSON
`scopes` blob is carried in already-parsed form; `database.ParseScopes`
only fails on malformed JSON, which the store never produces. -/
structure ProxyTokenM where
  id : String
  tokenHash : String
  tokenPfx : String
  userID : String
  githubTokenID : String
  repository : String
  scopes : List (String × String)
  sessionID : String
  expiresAt : Nat
  revokedAt : Option Nat
  lastUsedAt : Option Nat
  requestCount : Nat
  createdAt : Nat
  deriving Repr, DecidableEq

/-- Model of `database.AuditEntry` as written by the proxy handler
(`Handler.logRequest`). -/
structure AuditEntryM where
  userID : String
  proxyTokenID : Option String
  action : String
  method : String
  path : String
  repository : String
  statusCode : Nat
  sessionID : String
  deriving Repr, DecidableEq

/-- Model of `database.User` (the `users` row). -/
structure UserM where
  id : String
  githubID : Int
  githubUsername : String
  githubEmail : String
  role : String
  createdAt : Nat
  updatedAt : Nat
  deriving Repr, DecidableEq

/-- Model of an in-memory `auth.Session`. -/
structure SessionM where
  userID : String
  username : String
  role : String
  expiresAt : Nat
  deriving Repr, DecidableEq

/-- Lookup in a scope map, modelling Go map indexing `s[permission]`. -/
def scopesGet (s : List (String × String)) (permission : String) : Option String :=
  (s.find? (fun kv => kv.1 = permission)).map (·.2)

/-- Model of `database.Scopes.HasPermission`: the permission must be
present; a `write` grant also satisfies `read`. -/
def hasPermission (s : List (String × String)) (permission level : String) : Bool :=
  match scopesGet s permission with
  | none => false
  | some granted =>
    if level = "read" then granted = "read" ∨ granted = "write"
    else granted = level

/-! ## Store semantics (internal/database/sqlite.go) -/

/-- The proxy-token table, in insertion order. `token_hash` and `id` are
unique in the schema; lookups return the first match. -/
def TokenTable := List ProxyTokenM

/-- Model of `SQLiteStore.GetProxyTokenByHash`: first row with the hash,
`none` when absent. The row is returned regardless of revoked/expired
state. -/
def getProxyTokenByHash (table : List ProxyTokenM) (hash : String) : Option ProxyTokenM :=
  table.find? (fun t => t.tokenHash = hash)

/-- Error returned by `SQLiteStore.RevokeProxyToken` when the conditional
update touches no row (`token not found or already revoked`). -/
inductive RevokeErr where
  | notFoundOrAlreadyRevoked
  deriving Repr, DecidableEq

/-- The per-row effect of the revoke update statement: set `revoked_at`
to `now` exactly on the rows satisfying
`id = ? AND revoked_at IS NULL`. -/
def revokeUpd (now : Nat) (id : String) (t : ProxyTokenM) : ProxyTokenM :=
  if t.id = id ∧ t.revokedAt = none then { t with revokedAt := some now } else t

/-- Model of `SQLiteStore.RevokeProxyToken`: one SQL statement
`UPDATE proxy_tokens SET revoked_at = now WHERE id = ? AND revoked_at IS
NULL`; if no row is affected the call fails. -/
def revokeProxyToken (table : List ProxyTokenM) (now : Nat) (id : String) :
    Except RevokeErr (List ProxyTokenM) :=
  let affected := table.countP (fun t => t.id = id ∧ t.revokedAt = none)
  if affected = 0 then
    .error .notFoundOrAlreadyRevoked
  else
    .ok (table.map (revokeUpd now id))

/-! ## Token service (internal/token) -/

/-- The fixed proxy-token literal from `token.Prefix`. -/
def tokenPfxLit : String := "ghp_"

/-- The base62 alphabet from the `token` package. -/
def alphabet : String := "0123456789ABCDEFGHIJKLMNOPQRSTUVWXYZabcdefghijklmnopqrstuvwxyz"

/-- Model of `token.generateToken` applied to the 32 random bytes read
from `crypto/rand`, taken here as the natural number `n` they encode
(big-endian, as `big.Int.SetBytes` reads them). The Go loop emits base62
digits least-significant first, pads with `alphabet[0] = '0'` to width
43, then reverses; `Nat.digits 62 n` is exactly that digit stream. -/
def generateToken (n : Nat) : String :=
  let digitsLE := (Nat.digits 62 n).map (fun d => alphabet.toList.getD d '0')
  let padded := digitsLE ++ List.replicate (43 - digitsLE.length) '0'
  tokenPfxLit ++ String.mk padded.reverse

/-- Error outcomes of `token.Service.Resolve` (the three distinct error
messages the Go function can produce besides a store failure). -/
inductive ResolveErr where
  | invalidPfx
  | revoked
  | expired
  deriving Repr, DecidableEq

/-- Model of `token.Service.Resolve`. The SHA-256 digest `token.Hash` is
standard-library code and is abstracted as the `hash` argument; the store
is the proxy-token table. `now > expiresAt` is Go's
`time.Now().After(pt.ExpiresAt)`. Returns `.ok none` when the hash is
unknown (the Go function returns `nil, nil`). -/
def Resolve (hash : String → String) (table : List ProxyTokenM) (now : Nat)
    (plaintext : String) : Except ResolveErr (Option ProxyTokenM) :=
  if ¬ hasPfx plaintext tokenPfxLit then
    .error .invalidPfx
  else
    match getProxyTokenByHash table (hash plaintext) with
    | none => .ok none
    | some pt =>
      if pt.revokedAt ≠ none then .error .revoked
      else if now > pt.expiresAt then .error .expired
      else .ok (some pt)

/-! ## Endpoint scope table (internal/proxy, `init` rules + `EndpointScope`)

Each Go rule is an anchored regular expression over the path. Every
pattern in the table has the shape: a `/`-separated sequence of segment
patterns, followed by one of four tails. Segment patterns are literals,
`[^/]+` (one non-empty slash-free segment; it may contain a newline),
`[0-9]+`, or an alternation of literals. The tails are: end of string,
`(/.*)?$`, `/.*$` and `(/[0-9]+)?$`. Go regexp `.` does not match a
newline, so the `.*` tails require the remainder to be newline-free. -/

/-- Segment pattern of an endpoint rule. -/
inductive SegPat where
  | lit (s : String)
  | anySeg
  | numSeg
  | altSeg (ss : List String)
  deriving Repr

/-- Tail pattern of an endpoint rule. -/
inductive TailPat where
  | exact
  | optRest
  | reqRest
  | optNum
  deriving Repr

/-- One compiled endpoint rule: pattern, method (empty = any), permission
and level, mirroring `proxy.endpointRule`. -/
structure RuleM where
  segs : List SegPat
  tail : TailPat
  method : String
  permission : String
  level : String

/-- One segment of `[0-9]+`. -/
def isNumSeg (s : String) : Bool :=
  if s = "" then false else s.toList.all (fun c => c.isDigit)

/-- A path remainder that `.*` can match: no newline in any segment. -/
def noNewline (rest : List String) : Bool :=
  rest.all (fun s => s.toList.all (fun c => c ≠ '\n'))

/-- Match one segment pattern against one path segment. -/
def matchSeg : SegPat → String → Bool
  | .lit l, s => s = l
  | .anySeg, s => if s = "" then false else true
  | .numSeg, s => isNumSeg s
  | .altSeg ss, s => ss.contains s

/-- Match a list of segment patterns against the leading path segments,
returning the remaining segments on success. -/
def matchSegsList : List SegPat → List String → Option (List String)
  | [], rest => some rest
  | _ :: _, [] => none
  | p :: ps, s :: ss => if matchSeg p s then matchSegsList ps ss else none

/-- Match a tail pattern against the remaining path segments. -/
def matchTail : TailPat → List String → Bool
  | .exact, rest => rest = []
  | .optRest, rest => rest = [] ∨ noNewline rest
  | .reqRest, rest => rest ≠ [] ∧ noNewline rest
  | .optNum, rest =>
    match rest with
    | [] => true
    | [s] => isNumSeg s
    | _ => false

/-- Whether a rule's anchored pattern matches the whole path: the path
must start with `/` and its segments must match the rule. -/
def matchPath (r : RuleM) (path : String) : Bool :=
  match splitAll path '/' with
  | "" :: segs =>
    match matchSegsList r.segs segs with
    | some rest => matchTail r.tail rest
    | none => false
  | _ => false

/-- The common `^/repos/[^/]+/[^/]+/` pattern head. -/
def repoSegs : List SegPat := [.lit "repos", .anySeg, .anySeg]

/-- The ordered rule table from the `proxy` package `init` function,
entry for entry. -/
def rules : List RuleM := [
  ⟨repoSegs ++ [.lit "contents"], .optRest, "GET", "contents", "read"⟩,
  ⟨repoSegs ++ [.lit "contents"], .optRest, "PUT", "contents", "write"⟩,
  ⟨repoSegs ++ [.lit "contents"], .optRest, "DELETE", "contents", "write"⟩,
  ⟨repoSegs ++ [.lit "git", .altSeg ["refs", "trees", "blobs", "commits", "tags"]], .optRest, "GET", "contents", "read"⟩,
  ⟨repoSegs ++ [.lit "git", .altSeg ["refs", "trees", "blobs", "commits", "tags"]], .optRest, "POST", "contents", "write"⟩,
  ⟨repoSegs ++ [.lit "git", .altSeg ["refs", "trees", "blobs", "commits", "tags"]], .optRest, "PATCH", "contents", "write"⟩,
  ⟨repoSegs ++ [.lit "branches"], .optRest, "GET", "contents", "read"⟩,
  ⟨repoSegs ++ [.lit "commits"], .optRest, "GET", "contents", "read"⟩,
  ⟨repoSegs ++ [.lit "compare"], .reqRest, "GET", "contents", "read"⟩,
  ⟨repoSegs ++ [.lit "pulls"], .optNum, "GET", "pulls", "read"⟩,
  ⟨repoSegs ++ [.lit "pulls"], .exact, "POST", "pulls", "write"⟩,
  ⟨repoSegs ++ [.lit "pulls", .numSeg], .exact, "PATCH", "pulls", "write"⟩,
  ⟨repoSegs ++ [.lit "pulls", .numSeg, .lit "merge"], .exact, "PUT", "pulls", "write"⟩,
  ⟨repoSegs ++ [.lit "pulls", .numSeg, .altSeg ["files", "commits", "reviews", "comments", "requested_reviewers"]], .optRest, "GET", "pulls", "read"⟩,
  ⟨repoSegs ++ [.lit "pulls", .numSeg, .altSeg ["reviews", "comments", "requested_reviewers"]], .optRest, "POST", "pulls", "write"⟩,
  ⟨repoSegs ++ [.lit "pulls", .numSeg, .altSeg ["reviews", "comments", "requested_reviewers"]], .optRest, "PUT", "pulls", "write"⟩,
  ⟨repoSegs ++ [.lit "pulls", .numSeg, .altSeg ["reviews", "comments", "requested_reviewers"]], .optRest, "DELETE", "pulls", "write"⟩,
  ⟨repoSegs ++ [.lit "issues"], .optNum, "GET", "issues", "read"⟩,
  ⟨repoSegs ++ [.lit "issues"], .exact, "POST", "issues", "write"⟩,
  ⟨repoSegs ++ [.lit "issues", .numSeg], .exact, "PATCH", "issues", "write"⟩,
  ⟨repoSegs ++ [.lit "issues", .numSeg, .lit "comments"], .optRest, "GET", "issues", "read"⟩,
  ⟨repoSegs ++ [.lit "issues", .numSeg, .lit "comments"], .optRest, "POST", "issues", "write"⟩,
  ⟨repoSegs ++ [.lit "issues", .numSeg, .lit "labels"], .optRest, "GET", "issues", "read"⟩,
  ⟨repoSegs ++ [.lit "issues", .numSeg, .lit "labels"], .optRest, "POST", "issues", "write"⟩,
  ⟨repoSegs ++ [.lit "issues", .numSeg, .lit "labels"], .optRest, "PUT", "issues", "write"⟩,
  ⟨repoSegs ++ [.lit "issues", .numSeg, .lit "labels"], .optRest, "DELETE", "issues", "write"⟩,
  ⟨repoSegs ++ [.lit "issues", .numSeg, .lit "assignees"], .optRest, "GET", "issues", "read"⟩,
  ⟨repoSegs ++ [.lit "issues", .numSeg, .lit "assignees"], .optRest, "POST", "issues", "write"⟩,
  ⟨repoSegs ++ [.lit "issues", .numSeg, .lit "assignees"], .optRest, "DELETE", "issues", "write"⟩,
  ⟨repoSegs ++ [.lit "statuses"], .reqRest, "GET", "statuses", "read"⟩,
  ⟨repoSegs ++ [.lit "statuses"], .reqRest, "POST", "statuses", "write"⟩,
  ⟨repoSegs ++ [.lit "check-runs"], .optRest, "GET", "checks", "read"⟩,
  ⟨repoSegs ++ [.lit "check-runs"], .optRest, "POST", "checks", "write"⟩,
  ⟨repoSegs ++ [.lit "check-suites"], .optRest, "GET", "checks", "read"⟩,
  ⟨repoSegs ++ [.lit "actions"], .optRest, "GET", "actions", "read"⟩,
  ⟨repoSegs ++ [.lit "actions", .altSeg ["workflows", "runs"], .anySeg, .lit "dispatches"], .exact, "POST", "actions", "write"⟩,
  ⟨repoSegs ++ [.lit "releases"], .optRest, "GET", "contents", "read"⟩,
  ⟨repoSegs ++ [.lit "releases"], .optRest, "POST", "contents", "write"⟩,
  ⟨repoSegs, .exact, "GET", "metadata", "read"⟩,
  ⟨[.lit "user"], .exact, "", "metadata", "read"⟩]

/-- First-match scan over a rule list, as in `EndpointScope`. -/
def firstRule : List RuleM → String → String → String × String
  | [], _, _ => ("", "")
  | r :: rs, method, path =>
    if (r.method = "" ∨ r.method = method) ∧ matchPath r path then
      (r.permission, r.level)
    else
      firstRule rs method path

/-- Model of `proxy.EndpointScope`: top-to-bottom scan of the table,
first match wins, `("", "")` when no rule matches. -/
def EndpointScope (method path : String) : String × String :=
  firstRule rules method path

/-- Model of `proxy.ExtractRepoFromPath`:
`strings.SplitN(strings.TrimPrefix(path, "/"), "/", 4)`, requiring at
least three parts with the first equal to `repos`. -/
def ExtractRepoFromPath (path : String) : String :=
  let parts := splitN (trimPfx path "/") '/' 4
  if parts.length < 3 ∨ parts.getD 0 "" ≠ "repos" then ""
  else parts.getD 1 "" ++ "/" ++ parts.getD 2 ""

/-! ## Reverse proxy handler (internal/proxy/proxy.go) -/

/-- The inbound request fields the handler inspects. -/
structure RequestM where
  method : String
  path : String
  authHeader : String
  deriving Repr, DecidableEq

/-- Model of `proxy.extractToken`: split the Authorization header on the
first space; accept schemes `token` and `bearer` case-insensitively and
require the `ghp_` literal; empty string means no usable bearer. -/
def extractToken (auth : String) : String :=
  if auth = "" then ""
  else
    let parts := splitN auth ' ' 2
    if parts.length ≠ 2 then ""
    else
      let scheme := toLowerStr (parts.getD 0 "")
      let tok := parts.getD 1 ""
      if (scheme = "token" ∨ scheme = "bearer") ∧ hasPfx tok tokenPfxLit then tok
      else ""

/-- An upstream (GitHub) HTTP response as seen by `forwardRequest`:
status, headers (Go map iteration order fixed as a list) and body. -/
structure UpstreamResponseM where
  status : Nat
  headers : List (String × List String)
  body : String
  deriving Repr, DecidableEq

/-- Model of `http.Header.Get`: first value of the key, `""` if absent. -/
def headerGet (hs : List (String × List String)) (k : String) : String :=
  match hs.find? (fun h => h.1 = k) with
  | some (_, v :: _) => v
  | _ => ""

/-- The four rate-limit headers the proxy copies one by one. -/
def rateLimitKeys : List String :=
  ["X-RateLimit-Limit", "X-RateLimit-Remaining", "X-RateLimit-Reset", "X-RateLimit-Used"]

/-- The first header-copy loop of `forwardRequest`: `Get`/`Set` of each
rate-limit key, skipping empty values. -/
def copyRateLimit (hs : List (String × List String)) : List (String × String) :=
  rateLimitKeys.filterMap (fun k =>
    let v := headerGet hs k
    if v = "" then none else some (k, v))

/-- The second header-copy loop of `forwardRequest`: all values of every
header whose name has the `X-GitHub` prefix or is `Link` or
`Content-Type`. -/
def copyOther (hs : List (String × List String)) : List (String × String) :=
  (hs.filter (fun h => hasPfx h.1 "X-GitHub" ∨ h.1 = "Link" ∨ h.1 = "Content-Type")).flatMap
    (fun h => h.2.map (fun v => (h.1, v)))

/-- The JSON error body written by `proxy.writeError` (keys in Go's
sorted map-marshal order, with the encoder's trailing newline). -/
def errorBody (msg : String) : String :=
  "\x7b\"documentation_url\":\"https://docs.github.com/rest\",\"message\":\"" ++ msg ++ "\"\x7d\n"

/-- What `forwardRequest` writes back: status, response headers in
emission order, body. -/
structure ForwardOut where
  status : Nat
  headers : List (String × String)
  body : String
  deriving Repr, DecidableEq

/-- Model of `Handler.forwardRequest` observable output. `none` for the
upstream response models a transport error from `client.Do` (502); on
success the upstream status and body are written through and the two
header-copy loops run. -/
def forwardRequest (up : Option UpstreamResponseM) : ForwardOut :=
  match up with
  | none =>
    { status := 502,
      headers := [("Content-Type", "application/json; charset=utf-8")],
      body := errorBody "Upstream request failed" }
  | some resp =>
    { status := resp.status,
      headers := copyRateLimit resp.headers ++ copyOther resp.headers,
      body := resp.body }

/-- Observable outcome of one `ServeHTTP` call: response status, audit
entries inserted, and whether the request was dispatched upstream. -/
structure OutcomeM where
  status : Nat
  audits : List AuditEntryM
  upstreamCalled : Bool
  deriving Repr, DecidableEq

/-- The audit entry built by `Handler.logRequest`. -/
def mkAudit (pt : ProxyTokenM) (action method path repo : String) (status : Nat) : AuditEntryM :=
  { userID := pt.userID
    proxyTokenID := some pt.id
    action := action
    method := method
    path := path
    repository := repo
    statusCode := status
    sessionID := pt.sessionID }

/-- The REST-branch path rewrite: strip a `/api/v3` prefix, then replace
an empty result with `/`. -/
def computeApiPath (p : String) : String :=
  let p1 := if hasPfx p "/api/v3" then trimPfx p "/api/v3" else p
  if p1 = "" then "/" else p1

/-- Whether the request takes the GraphQL branch: the `else if` in
`ServeHTTP` fires only when the path does not carry the `/api/v3`
prefix. -/
def isGraphqlBranch (p : String) : Bool :=
  ¬ hasPfx p "/api/v3" ∧ (p = "/api/graphql" ∨ p = "/graphql")

/-- Model of `Handler.ServeHTTP`. External effects enter as arguments:
`hash` is the SHA-256 digest, `table`/`now` the store and clock for
`Resolve`, `ghTok` the result of `getGitHubToken` (`none` = failure,
which is a 500), `up` the upstream response. In this model
`database.ParseScopes` always succeeds because the token's scopes are
carried pre-parsed (its only failure, malformed stored JSON, is a 500
that the store cannot produce). Usage recording does not change the
observable outcome and is omitted. -/
def serveHTTP (hash : String → String) (table : List ProxyTokenM) (now : Nat)
    (req : RequestM) (ghTok : Option String) (up : Option UpstreamResponseM) : OutcomeM :=
  let tok := extractToken req.authHeader
  if tok = "" then { status := 401, audits := [], upstreamCalled := false }
  else
    match Resolve hash table now tok with
    | .error _ => { status := 401, audits := [], upstreamCalled := false }
    | .ok none => { status := 401, audits := [], upstreamCalled := false }
    | .ok (some pt) =>
      if isGraphqlBranch req.path then
        match ghTok with
        | none => { status := 500, audits := [], upstreamCalled := false }
        | some _ =>
          let f := forwardRequest up
          { status := f.status
            audits := [mkAudit pt "proxy_request" req.method "/graphql" pt.repository f.status]
            upstreamCalled := true }
      else
        let apiPath := computeApiPath req.path
        let repo := ExtractRepoFromPath apiPath
        if repo ≠ "" ∧ ¬ eqFold repo pt.repository then
          { status := 403
            audits := [mkAudit pt "proxy_scope_denied" req.method apiPath repo 403]
            upstreamCalled := false }
        else
          let scope := EndpointScope req.method apiPath
          if scope.1 ≠ "" ∧ scope.1 ≠ "metadata" ∧ ¬ hasPermission pt.scopes scope.1 scope.2 then
            { status := 403
              audits := [mkAudit pt "proxy_scope_denied" req.method apiPath repo 403]
              upstreamCalled := false }
          else
            match ghTok with
            | none => { status := 500, audits := [], upstreamCalled := false }
            | some _ =>
              let f := forwardRequest up
              { status := f.status
                audits := [mkAudit pt "proxy_request" req.method apiPath repo f.status]
                upstreamCalled := true }

/-! ## Session lookup (internal/auth/auth.go) -/

/-- Model of `Handler.lookupSession`: exact-token lookup in the session
map; an entry past its expiry (`time.Now().After`) is treated as
absent. -/
def lookupSession (sessions : List (String × SessionM)) (now : Nat) (token : String) :
    Option SessionM :=
  match sessions.find? (fun kv => kv.1 = token) with
  | none => none
  | some kv => if now > kv.2.expiresAt then none else some kv.2

/-- Model of `Handler.GetSession`: the `ghp_session` cookie (if the
request carries one) is consulted first and its lookup result returned
unconditionally; only a cookie-less request falls through to an
`Authorization: Bearer ghpr_…` header. -/
def GetSession (sessions : List (String × SessionM)) (now : Nat)
    (cookie : Option String) (auth : String) : Option SessionM :=
  match cookie with
  | some v => lookupSession sessions now v
  | none =>
    if hasPfx auth "Bearer ghpr_" then
      lookupSession sessions now (trimPfx auth "Bearer ")
    else
      none

/-! ## User upsert (SQLiteStore.UpsertUser) -/

/-- The per-row effect of the upsert's `ON CONFLICT(github_id) DO UPDATE`
clause: refresh `github_username`, `github_email` and `updated_at` on the
conflicting row. -/
def userUpd (input : UserM) (now : Nat) (u : UserM) : UserM :=
  if u.githubID = input.githubID then
    { u with githubUsername := input.githubUsername
             githubEmail := input.githubEmail
             updatedAt := now }
  else u

/-- Model of `SQLiteStore.UpsertUser`. `newId` stands for the fresh
`uuid.New()` drawn when the input carries no id. On a `github_id`
conflict the update clause fires; in both cases the function then
re-reads `id, role, created_at, updated_at` by `github_id` and overwrites
those fields of the returned user (the unreachable fallback keeps the
function total). Returns the new table and the user as mutated. -/
def upsertUser (table : List UserM) (input : UserM) (newId : String) (now : Nat) :
    List UserM × UserM :=
  let id0 := if input.id = "" then newId else input.id
  match table.find? (fun u => u.githubID = input.githubID) with
  | some _ =>
    let table' := table.map (userUpd input now)
    match table'.find? (fun u => u.githubID = input.githubID) with
    | some r =>
      (table', { input with id := r.id, role := r.role,
                            createdAt := r.createdAt, updatedAt := r.updatedAt })
    | none => (table', input)
  | none =>
    let row := { input with id := id0, createdAt := now, updatedAt := now }
    (table ++ [row], row)

/-! ## Crypto (internal/crypto/crypto.go)

Bytes are `Nat`s below 256. Standard base64 (`encoding/base64`
`StdEncoding`) is embedded concretely; the AES-256-GCM AEAD is Go
standard-library code outside this repository and is abstracted as an
`AEADScheme`, with its functional correctness stated as hypotheses where
a theorem needs it. -/

/-- The standard base64 alphabet. -/
def b64Alphabet : List Char :=
  "ABCDEFGHIJKLMNOPQRSTUVWXYZabcdefghijklmnopqrstuvwxyz0123456789+/".toList

/-- Sextet value to base64 character. -/
def b64Char (i : Nat) : Char := b64Alphabet.getD i '?'

/-- Base64 character back to its sextet value. -/
def b64Val (c : Char) : Option Nat := b64Alphabet.indexOf? c

/-- Standard base64 encoding of a byte list, three bytes to four
characters, final group padded with `=`. -/
def b64Encode : List Nat → List Char
  | [] => []
  | [a] => [b64Char (a / 4), b64Char (a % 4 * 16), '=', '=']
  | [a, b] => [b64Char (a / 4), b64Char (a % 4 * 16 + b / 16), b64Char (b % 16 * 4), '=']
  | a :: b :: c :: rest =>
    b64Char (a / 4) :: b64Char (a % 4 * 16 + b / 16) ::
    b64Char (b % 16 * 4 + c / 64) :: b64Char (c % 64) :: b64Encode rest

/-- Standard base64 decoding: four characters at a time, `=` padding
allowed only in the final group (Go's default non-strict decoder does not
check the discarded trailing bits). -/
def b64Decode : List Char → Option (List Nat)
  | [] => some []
  | c1 :: c2 :: c3 :: c4 :: rest =>
    if c3 = '=' ∧ c4 = '=' ∧ rest = [] then
      match b64Val c1, b64Val c2 with
      | some x, some y => some [x * 4 + y / 16]
      | _, _ => none
    else if c4 = '=' ∧ rest = [] then
      match b64Val c1, b64Val c2, b64Val c3 with
      | some x, some y, some z => some [x * 4 + y / 16, y % 16 * 16 + z / 4]
      | _, _, _ => none
    else
      match b64Val c1, b64Val c2, b64Val c3, b64Val c4, b64Decode rest with
      | some x, some y, some z, some w, some bs =>
        some ((x * 4 + y / 16) :: (y % 16 * 16 + z / 4) :: (z % 4 * 64 + w) :: bs)
      | _, _, _, _, _ => none
  | _ => none

/-- An authenticated-encryption primitive: `sealFn key nonce plaintext`
appends the tag, `openFn key nonce ct` verifies and strips it. AES-256-GCM
(`cipher.NewGCM` over `aes.NewCipher`) is one such scheme; it lives in
the Go standard library, outside this repository. -/
structure AEADScheme where
  nonceSize : Nat
  sealFn : List Nat → List Nat → List Nat → List Nat
  openFn : List Nat → List Nat → List Nat → Option (List Nat)

/-- Model of `Encryptor.Encrypt`: seal under a freshly drawn nonce
(passed in explicitly), prepend the nonce, base64-encode. -/
def Encrypt (A : AEADScheme) (key nonce plaintext : List Nat) : String :=
  String.mk (b64Encode (nonce ++ A.sealFn key nonce plaintext))

/-- Failure modes of `Encryptor.Decrypt` (its three distinct error
messages). -/
inductive DecryptErr where
  | badEncoding
  | tooShort
  | openFailed
  deriving Repr, DecidableEq

/-- Model of `Encryptor.Decrypt`: base64-decode, reject an input shorter
than the nonce, split off the nonce, verify-and-decrypt. -/
def Decrypt (A : AEADScheme) (key : List Nat) (encoded : String) :
    Except DecryptErr (List Nat) :=
  match b64Decode encoded.toList with
  | none => .error .badEncoding
  | some ct =>
    if ct.length < A.nonceSize then .error .tooShort
    else
      match A.openFn key (ct.take A.nonceSize) (ct.drop A.nonceSize) with
      | none => .error .openFailed
      | some plaintext => .ok plaintext

/-! ## Concrete fixtures used by witnesses and counterexamples -/

/-- A sample usable proxy-token row. -/
def sampleToken : ProxyTokenM :=
  { id := "tok-1"
    tokenHash := "h-1"
    tokenPfx := "ghp_aaaa"
    userID := "user-1"
    githubTokenID := "gh-1"
    repository := "acme/widget"
    scopes := [("contents", "read")]
    sessionID := "sess-1"
    expiresAt := 1000
    revokedAt := none
    lastUsedAt := none
    requestCount := 0
    createdAt := 0 }

/-- A stand-in digest that maps every plaintext to the sample row's
stored hash. -/
def sampleHash : String → String := fun _ => "h-1"

/-! ## Claim theorems -/

/-- C2 (amended): `Resolve` fails with the invalid-prefix error when the
plaintext does not start with `ghp_`; otherwise it looks up the row by
hash and returns `none` when absent, fails with the revoked error when
`revoked_at` is set, fails with the expired error when
`now() > expires_at`, and returns the row otherwise — so a token is
usable exactly when `revoked_at == null` and `now() ≤ expires_at` (the
code uses `time.Now().After(expires_at)`, which is strict). -/
theorem resolve_spec (hash : String → String) (table : List ProxyTokenM)
    (now : Nat) (p : String) :
    (hasPfx p tokenPfxLit = false → Resolve hash table now p = .error .invalidPfx)
    ∧ (hasPfx p tokenPfxLit = true → getProxyTokenByHash table (hash p) = none →
        Resolve hash table now p = .ok none)
    ∧ (∀ pt, hasPfx p tokenPfxLit = true →
        getProxyTokenByHash table (hash p) = some pt → pt.revokedAt ≠ none →
        Resolve hash table now p = .error .revoked)
    ∧ (∀ pt, hasPfx p tokenPfxLit = true →
        getProxyTokenByHash table (hash p) = some pt → pt.revokedAt = none →
        now > pt.expiresAt → Resolve hash table now p = .error .expired)
    ∧ (∀ pt, hasPfx p tokenPfxLit = true →
        getProxyTokenByHash table (hash p) = some pt → pt.revokedAt = none →
        now ≤ pt.expiresAt → Resolve hash table now p = .ok (some pt)) := by
  refine ⟨fun h => ?_, fun h hnone => ?_, fun pt h hsome hrev => ?_,
    fun pt h hsome hrev hexp => ?_, fun pt h hsome hrev hexp => ?_⟩
  · simp [Resolve, h]
  · simp [Resolve, h, hnone]
  · simp [Resolve, h, hsome, hrev]
  · simp [Resolve, h, hsome, hrev, hexp]
  · simp [Resolve, h, hsome, hrev, Nat.not_lt.mpr hexp]

/-- C2 witness: the amended theorem applied at concrete inputs — a
non-`ghp_` plaintext is rejected with the invalid-prefix error, and the
sample token resolves while still within its lifetime. -/
theorem resolve_spec_witness :
    Resolve sampleHash [sampleToken] 5 "gho_xyz" = .error .invalidPfx
    ∧ Resolve sampleHash [sampleToken] 5 "ghp_xyz" = .ok (some sampleToken) :=
  ⟨(resolve_spec sampleHash [sampleToken] 5 "gho_xyz").1 (by decide),
   (resolve_spec sampleHash [sampleToken] 5 "ghp_xyz").2.2.2.2 sampleToken
     (by decide) (by decide) (by decide) (by decide)⟩

/-- C2 counterexample: at the instant `now() = expires_at` the code does
not report the expired error (Go uses `time.Now().After`, a strict
comparison); it returns the row, contradicting the claim's
`now() >= expires_at` condition. -/
theorem resolve_expiry_boundary_cex :
    1000 ≥ sampleToken.expiresAt
    ∧ sampleToken.revokedAt = none
    ∧ Resolve sampleHash [sampleToken] 1000 "ghp_xyz" ≠ .error .expired
    ∧ Resolve sampleHash [sampleToken] 1000 "ghp_xyz" = .ok (some sampleToken) := by
  have he : Resolve sampleHash [sampleToken] 1000 "ghp_xyz" = .ok (some sampleToken) := rfl
  exact ⟨by decide, by decide, by rw [he]; exact fun hc => Except.noConfusion hc, he⟩

/-- The revoke update never changes a row's `token_hash`. -/
theorem revokeUpd_tokenHash (now : Nat) (id : String) (t : ProxyTokenM) :
    (revokeUpd now id t).tokenHash = t.tokenHash := by
  unfold revokeUpd; split <;> rfl

/-- After the revoke update, no row is simultaneously the target id and
unrevoked. -/
theorem revokeUpd_not_pending (now : Nat) (id : String) (t : ProxyTokenM) :
    ¬((revokeUpd now id t).id = id ∧ (revokeUpd now id t).revokedAt = none) := by
  unfold revokeUpd; split
  · simp
  · next h => exact h

/-- C5: `RevokeProxyToken` errors when no row matches
`id = ? AND revoked_at IS NULL`; on success it stamps `revoked_at = now`
exactly on the pending row and leaves every other row unchanged; after a
successful revoke, `Resolve` on that token's plaintext fails with the
revoked error (never returning the row), and a second revoke of the same
id fails with the conflict error. -/
theorem revoke_then_resolve (hash : String → String) (table : List ProxyTokenM)
    (now : Nat) (id p : String) (t : ProxyTokenM)
    (hfind : getProxyTokenByHash table (hash p) = some t)
    (hpfx : hasPfx p tokenPfxLit = true)
    (hid : t.id = id) (hnr : t.revokedAt = none) :
    (∀ table2 now2 id2, (∀ u ∈ table2, ¬(u.id = id2 ∧ u.revokedAt = none)) →
        revokeProxyToken table2 now2 id2 = .error .notFoundOrAlreadyRevoked)
    ∧ revokeProxyToken table now id = .ok (table.map (revokeUpd now id))
    ∧ (∀ u, ¬(u.id = id ∧ u.revokedAt = none) → revokeUpd now id u = u)
    ∧ (∀ u, u.id = id → u.revokedAt = none →
        revokeUpd now id u = { u with revokedAt := some now })
    ∧ (∀ now2, Resolve hash (table.map (revokeUpd now id)) now2 p = .error .revoked)
    ∧ (∀ now3, revokeProxyToken (table.map (revokeUpd now id)) now3 id =
        .error .notFoundOrAlreadyRevoked) := by
  have hmem : t ∈ table := List.mem_of_find?_eq_some hfind
  have hlookup : getProxyTokenByHash (table.map (revokeUpd now id)) (hash p) =
      some { t with revokedAt := some now } := by
    unfold getProxyTokenByHash at hfind ⊢
    rw [List.find?_map]
    have hpred : ((fun u : ProxyTokenM => decide (u.tokenHash = hash p)) ∘ revokeUpd now id)
        = fun u : ProxyTokenM => decide (u.tokenHash = hash p) := by
      funext u
      simp [Function.comp, revokeUpd_tokenHash]
    rw [hpred, hfind]
    simp [revokeUpd, hid, hnr]
  refine ⟨?_, ?_, ?_, ?_, ?_, ?_⟩
  · intro table2 now2 id2 hall
    simp only [revokeProxyToken]
    rw [if_pos (List.countP_eq_zero.mpr (by simpa using hall))]
  · have hpos : 0 < table.countP (fun u => decide (u.id = id ∧ u.revokedAt = none)) :=
      List.countP_pos_iff.mpr ⟨t, hmem, by simp [hid, hnr]⟩
    simp only [revokeProxyToken]
    rw [if_neg (Nat.pos_iff_ne_zero.mp hpos)]
  · intro u hu
    unfold revokeUpd
    exact if_neg hu
  · intro u h1 h2
    unfold revokeUpd
    exact if_pos ⟨h1, h2⟩
  · intro now2
    simp [Resolve, hpfx, hlookup]
  · intro now3
    have hz : (table.map (revokeUpd now id)).countP
        (fun u => decide (u.id = id ∧ u.revokedAt = none)) = 0 := by
      refine List.countP_eq_zero.mpr ?_
      intro u hu
      rcases List.mem_map.mp hu with ⟨x, _, rfl⟩
      simpa using revokeUpd_not_pending now id x
    simp only [revokeProxyToken]
    rw [if_pos hz]

/-- C5 witness: the theorem applied to the sample table — revoking the
sample token succeeds, the revoked copy is stamped, a later `Resolve`
reports the revoked error and a second revoke fails. -/
theorem revoke_then_resolve_witness :
    revokeProxyToken [sampleToken] 50 "tok-1" =
      .ok [{ sampleToken with revokedAt := some 50 }]
    ∧ Resolve sampleHash [{ sampleToken with revokedAt := some 50 }] 60 "ghp_xyz" =
      .error .revoked
    ∧ revokeProxyToken [{ sampleToken with revokedAt := some 50 }] 70 "tok-1" =
      .error .notFoundOrAlreadyRevoked := by
  have h := revoke_then_resolve sampleHash [sampleToken] 50 "tok-1" "ghp_xyz" sampleToken
    (by decide) (by decide) (by decide) (by decide)
  refine ⟨?_, ?_, ?_⟩
  · have := h.2.1
    simpa [revokeUpd, sampleToken] using this
  · have := h.2.2.2.2.1 60
    simpa [revokeUpd, sampleToken] using this
  · have := h.2.2.2.2.2 70
    simpa [revokeUpd, sampleToken] using this

/-- No 32-byte value needs more than 43 base62 digits
(`2 ^ 256 ≤ 62 ^ 43`). -/
theorem digits62_len_le (n : Nat) (h : n < 2 ^ 256) : (Nat.digits 62 n).length ≤ 43 := by
  rcases Nat.eq_zero_or_pos n with rfl | hn
  · simp
  · by_contra hc
    push_neg at hc
    have h1 : (62:Nat) ^ (Nat.digits 62 n).length ≤ 62 * n :=
      Nat.base_pow_length_digits_le 62 n (by norm_num) (Nat.pos_iff_ne_zero.mp hn)
    have h2 : (62:Nat) ^ 44 ≤ 62 ^ (Nat.digits 62 n).length :=
      Nat.pow_le_pow_right (by norm_num) (by omega)
    have h3 : (62:Nat) * 62 ^ 43 ≤ 62 * n := by
      calc (62:Nat) * 62 ^ 43 = 62 ^ 44 := by ring
      _ ≤ 62 ^ (Nat.digits 62 n).length := h2
      _ ≤ 62 * n := h1
    have h4 : (62:Nat) ^ 43 ≤ n := Nat.le_of_mul_le_mul_left h3 (by norm_num)
    have h5 : (2:Nat) ^ 256 ≤ 62 ^ 43 := by norm_num
    omega

/-- C7: for every 32-byte random value (any `n < 2 ^ 256`), the
generated plaintext is the `ghp_` literal followed by exactly 43
characters of the base62 alphabet — short base62 expansions are
left-padded with the alphabet's first character `'0'` — and the body
contains no underscore, so the `ghp_` prefix occurs exactly once. -/
theorem generate_token_format (n : Nat) (h : n < 2 ^ 256) :
    ∃ body : List Char,
      generateToken n = tokenPfxLit ++ String.mk body
      ∧ body.length = 43
      ∧ (∀ c ∈ body, c ∈ alphabet.toList)
      ∧ (∀ c ∈ body, c ≠ '_') := by
  have halen : alphabet.toList.length = 62 := by decide
  have hdlen : (Nat.digits 62 n).length ≤ 43 := digits62_len_le n h
  refine ⟨((Nat.digits 62 n).map (fun d => alphabet.toList.getD d '0') ++
      List.replicate (43 - ((Nat.digits 62 n).map
        (fun d => alphabet.toList.getD d '0')).length) '0').reverse,
    rfl, ?_, ?_, ?_⟩
  · simp only [List.length_reverse, List.length_append, List.length_replicate,
      List.length_map]
    omega
  · intro c hc
    rw [List.mem_reverse, List.mem_append] at hc
    rcases hc with hc | hc
    · rcases List.mem_map.mp hc with ⟨d, hd, rfl⟩
      have hdlt : d < 62 := Nat.digits_lt_base (by norm_num) hd
      rw [List.getD_eq_getElem alphabet.toList '0' (by omega)]
      exact List.getElem_mem _
    · have : c = '0' := List.eq_of_mem_replicate hc
      subst this
      decide
  · intro c hc
    rw [List.mem_reverse, List.mem_append] at hc
    rcases hc with hc | hc
    · rcases List.mem_map.mp hc with ⟨d, hd, rfl⟩
      have hdlt : d < 62 := Nat.digits_lt_base (by norm_num) hd
      rw [List.getD_eq_getElem alphabet.toList '0' (by omega)]
      intro hbad
      have hmem : ('_' : Char) ∈ alphabet.toList := hbad ▸ List.getElem_mem _
      exact absurd hmem (by decide)
    · have : c = '0' := List.eq_of_mem_replicate hc
      subst this
      decide

/-- C7 witness: the format theorem applied to the all-zero draw, whose
body is 43 copies of the pad character. -/
theorem generate_token_format_witness :
    ∃ body : List Char,
      generateToken 0 = tokenPfxLit ++ String.mk body
      ∧ body.length = 43
      ∧ (∀ c ∈ body, c ∈ alphabet.toList)
      ∧ (∀ c ∈ body, c ≠ '_') :=
  generate_token_format 0 (by norm_num)

/-- C10: when the request carries a `ghp_session` cookie, `GetSession`
is exactly the lookup of the cookie value — in particular an absent or
expired cookie session yields `nil` without the Authorization header
being consulted, whatever (possibly valid `ghpr_`) bearer it holds. -/
theorem get_session_cookie_only (sessions : List (String × SessionM)) (now : Nat)
    (cookie : Option String) (auth v : String) (h : cookie = some v) :
    GetSession sessions now cookie auth = lookupSession sessions now v
    ∧ (lookupSession sessions now v = none →
        GetSession sessions now cookie auth = none) := by
  subst h
  exact ⟨rfl, fun h2 => h2⟩

/-- A session map holding an expired session under the cookie token and
a live session under a `ghpr_` bearer. -/
def sampleSessions : List (String × SessionM) :=
  [("cookie-tok", { userID := "u1", username := "alice", role := "user", expiresAt := 10 }),
   ("ghpr_abc", { userID := "u1", username := "alice", role := "user", expiresAt := 1000 })]

/-- C10 witness: with an expired cookie session, `GetSession` is `none`
even though the same request's Authorization header carries a `ghpr_`
session token that would have resolved. -/
theorem get_session_cookie_only_witness :
    GetSession sampleSessions 50 (some "cookie-tok") "Bearer ghpr_abc" = none
    ∧ lookupSession sampleSessions 50 (trimPfx "Bearer ghpr_abc" "Bearer ") =
        some { userID := "u1", username := "alice", role := "user", expiresAt := 1000 } :=
  ⟨(get_session_cookie_only sampleSessions 50 (some "cookie-tok") "Bearer ghpr_abc"
      "cookie-tok" rfl).2 (by decide), by decide⟩

/-- The conflict-update clause of `UpsertUser` never changes a row's
`github_id`. -/
theorem userUpd_githubID (input : UserM) (now : Nat) (u : UserM) :
    (userUpd input now u).githubID = u.githubID := by
  unfold userUpd; split <;> rfl

/-- C9: upserting a user whose `github_id` already has a row updates only
`github_username`, `github_email` and `updated_at` on that row — `id`,
`created_at` and `role` are untouched — and the returned user carries the
row's stored `id`, `role` and `created_at` (so the role computed from the
admin allowlist at login does not overwrite an existing user's role). -/
theorem upsert_preserves_identity (table : List UserM) (input : UserM)
    (newId : String) (now : Nat) (r : UserM)
    (hfind : table.find? (fun u => u.githubID = input.githubID) = some r) :
    (upsertUser table input newId now).1 = table.map (userUpd input now)
    ∧ (∀ u, u.githubID ≠ input.githubID → userUpd input now u = u)
    ∧ (∀ u, u.githubID = input.githubID →
        (userUpd input now u).id = u.id
        ∧ (userUpd input now u).role = u.role
        ∧ (userUpd input now u).createdAt = u.createdAt
        ∧ (userUpd input now u).githubID = u.githubID
        ∧ (userUpd input now u).githubUsername = input.githubUsername
        ∧ (userUpd input now u).githubEmail = input.githubEmail
        ∧ (userUpd input now u).updatedAt = now)
    ∧ (upsertUser table input newId now).2.id = r.id
    ∧ (upsertUser table input newId now).2.role = r.role
    ∧ (upsertUser table input newId now).2.createdAt = r.createdAt := by
  have hfind' : (table.map (userUpd input now)).find?
      (fun u => u.githubID = input.githubID) = some (userUpd input now r) := by
    rw [List.find?_map]
    have hpred : ((fun u : UserM => decide (u.githubID = input.githubID)) ∘ userUpd input now)
        = fun u : UserM => decide (u.githubID = input.githubID) := by
      funext u
      simp [Function.comp, userUpd_githubID]
    rw [hpred, hfind]
    rfl
  have hr : r.githubID = input.githubID := by simpa using List.find?_some hfind
  have hupd : userUpd input now r =
      { r with githubUsername := input.githubUsername
               githubEmail := input.githubEmail
               updatedAt := now } := by
    unfold userUpd
    exact if_pos hr
  refine ⟨?_, ?_, ?_, ?_, ?_, ?_⟩
  · simp [upsertUser, hfind, hfind']
  · intro u hu
    unfold userUpd
    exact if_neg hu
  · intro u hu
    unfold userUpd
    rw [if_pos hu]
    exact ⟨rfl, rfl, rfl, rfl, rfl, rfl, rfl⟩
  · simp [upsertUser, hfind, hfind', hupd]
  · simp [upsertUser, hfind, hfind', hupd]
  · simp [upsertUser, hfind, hfind', hupd]

/-- An existing stored user row. -/
def sampleUser : UserM :=
  { id := "uid-1", githubID := 42, githubUsername := "alice", githubEmail := "a@x"
    role := "user", createdAt := 7, updatedAt := 7 }

/-- C9 witness: re-upserting github id 42 with a changed username and an
`admin` role (as a changed allowlist would) keeps the stored id, role and
creation time on the returned user. -/
theorem upsert_preserves_identity_witness :
    (upsertUser [sampleUser]
      { id := "", githubID := 42, githubUsername := "alice2", githubEmail := "a2@x"
        role := "admin", createdAt := 0, updatedAt := 0 } "uid-new" 99).2.id = "uid-1"
    ∧ (upsertUser [sampleUser]
      { id := "", githubID := 42, githubUsername := "alice2", githubEmail := "a2@x"
        role := "admin", createdAt := 0, updatedAt := 0 } "uid-new" 99).2.role = "user"
    ∧ (upsertUser [sampleUser]
      { id := "", githubID := 42, githubUsername := "alice2", githubEmail := "a2@x"
        role := "admin", createdAt := 0, updatedAt := 0 } "uid-new" 99).2.createdAt = 7 := by
  have h := upsert_preserves_identity [sampleUser]
    { id := "", githubID := 42, githubUsername := "alice2", githubEmail := "a2@x"
      role := "admin", createdAt := 0, updatedAt := 0 } "uid-new" 99 sampleUser (by decide)
  exact ⟨h.2.2.2.1, h.2.2.2.2.1, h.2.2.2.2.2⟩

/-- Decoding inverts the sextet map on every valid sextet. -/
theorem b64Val_b64Char : ∀ i, i < 64 → b64Val (b64Char i) = some i := by decide

/-- No sextet encodes to the padding character. -/
theorem b64Char_ne_pad : ∀ i, i < 64 → b64Char i ≠ '=' := by decide

/-- Base64 decoding inverts encoding on byte lists. -/
theorem b64_roundtrip : ∀ bs : List Nat, (∀ b ∈ bs, b < 256) →
    b64Decode (b64Encode bs) = some bs
  | [], _ => rfl
  | [a], h => by
    have ha : a < 256 := h a (by simp)
    simp only [b64Encode, b64Decode]
    rw [if_pos (by simp)]
    rw [b64Val_b64Char _ (by omega), b64Val_b64Char _ (by omega)]
    simp only [Option.some.injEq, List.cons.injEq, and_true]
    omega
  | [a, b], h => by
    have ha : a < 256 := h a (by simp)
    have hb : b < 256 := h b (by simp)
    simp only [b64Encode, b64Decode]
    rw [if_neg (by
      rintro ⟨h3, -, -⟩
      exact b64Char_ne_pad _ (by omega) h3)]
    rw [if_pos (by simp)]
    rw [b64Val_b64Char _ (by omega), b64Val_b64Char _ (by omega),
      b64Val_b64Char _ (by omega)]
    simp only [Option.some.injEq, List.cons.injEq, and_true]
    omega
  | a :: b :: c :: rest, h => by
    have ha : a < 256 := h a (by simp)
    have hb : b < 256 := h b (by simp)
    have hc : c < 256 := h c (by simp)
    have ih := b64_roundtrip rest (fun x hx => h x (by simp [hx]))
    simp only [b64Encode, b64Decode]
    rw [if_neg (by
      rintro ⟨h3, -, -⟩
      exact b64Char_ne_pad _ (by omega) h3)]
    rw [if_neg (by
      rintro ⟨h4, -⟩
      exact b64Char_ne_pad _ (by omega) h4)]
    rw [b64Val_b64Char _ (by omega), b64Val_b64Char _ (by omega),
      b64Val_b64Char _ (by omega), b64Val_b64Char _ (by omega), ih]
    simp only [Option.some.injEq, List.cons.injEq, and_true]
    refine ⟨by omega, by omega, by omega⟩

/-- C8: under a correct AEAD (hypotheses state the standard contract of
AES-256-GCM, which lives in the Go standard library): decrypting an
encryption under the same key returns the plaintext; decrypting under a
key for which the tag does not verify fails with the open error; and any
input whose decoded form is shorter than the nonce fails with the
too-short error. -/
theorem encrypt_decrypt_spec (A : AEADScheme) (key key2 nonce plaintext : List Nat)
    (hn : nonce.length = A.nonceSize)
    (hbytes : ∀ b ∈ nonce ++ A.sealFn key nonce plaintext, b < 256) :
    (A.openFn key nonce (A.sealFn key nonce plaintext) = some plaintext →
        Decrypt A key (Encrypt A key nonce plaintext) = .ok plaintext)
    ∧ (A.openFn key2 nonce (A.sealFn key nonce plaintext) = none →
        Decrypt A key2 (Encrypt A key nonce plaintext) = .error .openFailed)
    ∧ (∀ s ct, b64Decode s.toList = some ct → ct.length < A.nonceSize →
        Decrypt A key s = .error .tooShort) := by
  have hdec : b64Decode (Encrypt A key nonce plaintext).data
      = some (nonce ++ A.sealFn key nonce plaintext) :=
    b64_roundtrip _ hbytes
  have hlen : ¬ (nonce ++ A.sealFn key nonce plaintext).length < A.nonceSize := by
    rw [List.length_append]; omega
  have htake : (nonce ++ A.sealFn key nonce plaintext).take A.nonceSize = nonce := by
    rw [← hn]; exact List.take_left _ _
  have hdrop : (nonce ++ A.sealFn key nonce plaintext).drop A.nonceSize
      = A.sealFn key nonce plaintext := by
    rw [← hn]; exact List.drop_left _ _
  refine ⟨fun hopen => ?_, fun hopen => ?_, fun s ct hds hlt => ?_⟩
  · simp [Decrypt, hdec, hlen, htake, hdrop, hopen]
    omega
  · simp [Decrypt, hdec, hlen, htake, hdrop, hopen]
    omega
  · have hds2 : b64Decode s.data = some ct := hds
    simp [Decrypt, hds2, hlt]

/-- A toy AEAD scheme with a 2-byte nonce and a checksum tag, correct
enough to instantiate the hypotheses of the encrypt/decrypt theorem at
concrete inputs. -/
def toyAEAD : AEADScheme :=
  { nonceSize := 2
    sealFn := fun key nonce p => p ++ [(key.sum + nonce.sum + p.sum) % 251]
    openFn := fun key nonce ct =>
      if ct = [] then none
      else if ct.getLast? = some ((key.sum + nonce.sum + ct.dropLast.sum) % 251) then
        some ct.dropLast
      else none }

/-- C8 witness: the theorem applied to the toy scheme — roundtrip under
key `[1,2]`, failure under key `[9,9,9]`, and a too-short input. -/
theorem encrypt_decrypt_spec_witness :
    Decrypt toyAEAD [1, 2] (Encrypt toyAEAD [1, 2] [3, 4] [7, 8]) = .ok [7, 8]
    ∧ Decrypt toyAEAD [9, 9, 9] (Encrypt toyAEAD [1, 2] [3, 4] [7, 8]) = .error .openFailed
    ∧ Decrypt toyAEAD [1, 2] "AA==" = .error .tooShort := by
  have h := encrypt_decrypt_spec toyAEAD [1, 2] [9, 9, 9] [3, 4] [7, 8]
    (by decide) (by decide)
  exact ⟨h.1 (by decide), h.2.1 (by decide), h.2.2 "AA==" [0] (by decide) (by decide)⟩

/-- C6 (amended): the proxy mirrors the upstream status and body
verbatim, and the response headers it emits are exactly the two copy
loops' output: the four named `X-RateLimit-{Limit,Remaining,Reset,Used}`
headers (first value, when non-empty) plus every value of every header
whose name has the `X-GitHub` prefix or equals `Link` or `Content-Type`.
Every such upstream header appears in the proxy response; other
`X-RateLimit-*` names (e.g. `X-RateLimit-Resource`) are not copied. -/
theorem forward_mirror_spec (resp : UpstreamResponseM) :
    (forwardRequest (some resp)).status = resp.status
    ∧ (forwardRequest (some resp)).body = resp.body
    ∧ (forwardRequest (some resp)).headers =
        copyRateLimit resp.headers ++ copyOther resp.headers
    ∧ (∀ k vs v, (k, vs) ∈ resp.headers →
        (hasPfx k "X-GitHub" = true ∨ k = "Link" ∨ k = "Content-Type") →
        v ∈ vs → (k, v) ∈ (forwardRequest (some resp)).headers)
    ∧ (∀ k, k ∈ rateLimitKeys → headerGet resp.headers k ≠ "" →
        (k, headerGet resp.headers k) ∈ (forwardRequest (some resp)).headers) := by
  refine ⟨rfl, rfl, rfl, ?_, ?_⟩
  · intro k vs v hmem hpred hv
    show (k, v) ∈ copyRateLimit resp.headers ++ copyOther resp.headers
    refine List.mem_append_right _ ?_
    unfold copyOther
    refine List.mem_flatMap.mpr ⟨(k, vs), ?_, ?_⟩
    · refine List.mem_filter.mpr ⟨hmem, ?_⟩
      simpa using hpred
    · exact List.mem_map.mpr ⟨v, hv, rfl⟩
  · intro k hk hne
    show (k, headerGet resp.headers k) ∈ copyRateLimit resp.headers ++ copyOther resp.headers
    refine List.mem_append_left _ ?_
    unfold copyRateLimit
    refine List.mem_filterMap.mpr ⟨k, hk, ?_⟩
    simp [hne]

/-- An upstream response carrying one of each copied header kind. -/
def mirrorResp : UpstreamResponseM :=
  { status := 201
    headers := [("Content-Type", ["application/json"]),
                ("X-RateLimit-Limit", ["60"]),
                ("X-GitHub-Request-Id", ["abc"])]
    body := "payload" }

/-- C6 witness: the mirror theorem applied to a concrete upstream
response. -/
theorem forward_mirror_spec_witness :
    (forwardRequest (some mirrorResp)).status = 201
    ∧ (forwardRequest (some mirrorResp)).body = "payload"
    ∧ ("Content-Type", "application/json") ∈ (forwardRequest (some mirrorResp)).headers
    ∧ ("X-GitHub-Request-Id", "abc") ∈ (forwardRequest (some mirrorResp)).headers
    ∧ ("X-RateLimit-Limit", "60") ∈ (forwardRequest (some mirrorResp)).headers := by
  have h := forward_mirror_spec mirrorResp
  refine ⟨by rw [h.1]; rfl, by rw [h.2.1]; rfl, ?_, ?_, ?_⟩
  · exact h.2.2.2.1 "Content-Type" ["application/json"] "application/json"
      (by decide) (by decide) (by decide)
  · exact h.2.2.2.1 "X-GitHub-Request-Id" ["abc"] "abc" (by decide) (by decide) (by decide)
  · have := h.2.2.2.2 "X-RateLimit-Limit" (by decide) (by decide)
    simpa using this

/-- An upstream response whose only header is an `X-RateLimit-*` name
outside the four the proxy copies. -/
def cexResp : UpstreamResponseM :=
  { status := 200, headers := [("X-RateLimit-Resource", ["core"])], body := "ok" }

/-- C6 counterexample: `X-RateLimit-Resource` matches `X-RateLimit-*`
and is present upstream, yet the proxy response carries no headers at
all — the code copies only the four hard-coded rate-limit names. -/
theorem forward_rate_limit_cex :
    ("X-RateLimit-Resource", ["core"]) ∈ cexResp.headers
    ∧ hasPfx "X-RateLimit-Resource" "X-RateLimit-" = true
    ∧ (forwardRequest (some cexResp)).headers = [] := by
  refine ⟨by decide, by decide, by decide⟩

/-- C1: a proxied REST request whose path extracts a repository that
differs case-insensitively from the resolved token's `repository` is
answered 403 with exactly one `proxy_scope_denied` audit entry and no
upstream dispatch. -/
theorem proxy_repo_mismatch_denied (hash : String → String) (table : List ProxyTokenM)
    (now : Nat) (req : RequestM) (ghTok : Option String) (up : Option UpstreamResponseM)
    (pt : ProxyTokenM) (repo : String)
    (htok : ¬ extractToken req.authHeader = "")
    (hres : Resolve hash table now (extractToken req.authHeader) = .ok (some pt))
    (hgql : isGraphqlBranch req.path = false)
    (hrepo : ExtractRepoFromPath (computeApiPath req.path) = repo)
    (hne : repo ≠ "")
    (hfold : eqFold repo pt.repository = false) :
    serveHTTP hash table now req ghTok up =
      { status := 403
        audits := [mkAudit pt "proxy_scope_denied" req.method (computeApiPath req.path) repo 403]
        upstreamCalled := false } := by
  simp only [serveHTTP]
  rw [if_neg htok, hres]
  simp only [hgql, Bool.false_eq_true, if_false]
  rw [hrepo]
  rw [if_pos ⟨hne, by simp [hfold]⟩]

/-- A request scoped to a repository other than the sample token's. -/
def reqMismatch : RequestM :=
  { method := "GET", path := "/api/v3/repos/other/other/pulls", authHeader := "token ghp_xyz" }

/-- C1 witness: the mismatch theorem applied to a concrete request
against the sample token. -/
theorem proxy_repo_mismatch_denied_witness :
    serveHTTP sampleHash [sampleToken] 5 reqMismatch (some "gho") none =
      { status := 403
        audits := [mkAudit sampleToken "proxy_scope_denied" "GET"
          "/repos/other/other/pulls" "other/other" 403]
        upstreamCalled := false } := by
  have h := proxy_repo_mismatch_denied sampleHash [sampleToken] 5 reqMismatch
    (some "gho") none sampleToken "other/other"
    (by decide) rfl (by decide) (by decide) (by decide) (by decide)
  exact h

/-- Every run of the handler either dispatches upstream, or ends in one
of: a 401 with no audit entry, a 500 with no audit entry, or a 403 with
exactly one `proxy_scope_denied` audit entry. -/
theorem serveHTTP_cases (hash : String → String) (table : List ProxyTokenM)
    (now : Nat) (req : RequestM) (ghTok : Option String) (up : Option UpstreamResponseM) :
    (serveHTTP hash table now req ghTok up).upstreamCalled = true
    ∨ serveHTTP hash table now req ghTok up = ⟨401, [], false⟩
    ∨ serveHTTP hash table now req ghTok up = ⟨500, [], false⟩
    ∨ ∃ pt apiPath repo, serveHTTP hash table now req ghTok up =
        ⟨403, [mkAudit pt "proxy_scope_denied" req.method apiPath repo 403], false⟩ := by
  simp only [serveHTTP]
  split
  · exact Or.inr (Or.inl rfl)
  · split
    · exact Or.inr (Or.inl rfl)
    · exact Or.inr (Or.inl rfl)
    · next pt heq =>
      split
      · split
        · exact Or.inr (Or.inr (Or.inl rfl))
        · exact Or.inl rfl
      · split
        · exact Or.inr (Or.inr (Or.inr ⟨pt, _, _, rfl⟩))
        · split
          · exact Or.inr (Or.inr (Or.inr ⟨pt, _, _, rfl⟩))
          · split
            · exact Or.inr (Or.inr (Or.inl rfl))
            · exact Or.inl rfl

/-- C3 (amended): when the handler denies a request without calling
upstream, a 403 denial (repository or permission mismatch) carries
exactly one audit entry, with action `proxy_scope_denied`; a 401 denial
(missing, malformed, unknown, revoked or expired bearer) writes no audit
entry at all. -/
theorem proxy_deny_audit (hash : String → String) (table : List ProxyTokenM)
    (now : Nat) (req : RequestM) (ghTok : Option String) (up : Option UpstreamResponseM)
    (hup : (serveHTTP hash table now req ghTok up).upstreamCalled = false) :
    ((serveHTTP hash table now req ghTok up).status = 403 →
      ∃ e, (serveHTTP hash table now req ghTok up).audits = [e]
        ∧ e.action = "proxy_scope_denied")
    ∧ ((serveHTTP hash table now req ghTok up).status = 401 →
      (serveHTTP hash table now req ghTok up).audits = []) := by
  rcases serveHTTP_cases hash table now req ghTok up with h | h | h | ⟨pt, apiPath, repo, h⟩
  · rw [h] at hup; exact absurd hup (by simp)
  · rw [h]; exact ⟨fun hc => absurd hc (by decide), fun _ => rfl⟩
  · rw [h]; exact ⟨fun hc => absurd hc (by decide), fun hc => absurd hc (by decide)⟩
  · rw [h]
    exact ⟨fun _ => ⟨mkAudit pt "proxy_scope_denied" req.method apiPath repo 403, rfl, rfl⟩,
      fun hc => absurd hc (by simp)⟩

/-- A request with no Authorization header at all. -/
def reqNoAuth : RequestM :=
  { method := "GET", path := "/api/v3/user", authHeader := "" }

/-- C3 counterexample: a request denied 401 for a missing bearer
produces no audit entry — the claim's "every 4xx denial produces an
audit entry" fails on all the 401 paths. -/
theorem proxy_deny_no_audit_cex :
    (serveHTTP sampleHash [sampleToken] 5 reqNoAuth none none).status = 401
    ∧ (serveHTTP sampleHash [sampleToken] 5 reqNoAuth none none).audits = []
    ∧ (serveHTTP sampleHash [sampleToken] 5 reqNoAuth none none).upstreamCalled = false := by
  refine ⟨by decide, by decide, by decide⟩

/-- A write request the sample token's read-only scope cannot satisfy. -/
def reqIssueWrite : RequestM :=
  { method := "POST", path := "/api/v3/repos/acme/widget/issues", authHeader := "Bearer ghp_xyz" }

/-- C3 witness: the amended theorem applied to a concrete
permission-denied request. -/
theorem proxy_deny_audit_witness :
    ∃ e, (serveHTTP sampleHash [sampleToken] 5 reqIssueWrite (some "g") none).audits = [e]
      ∧ e.action = "proxy_scope_denied" :=
  (proxy_deny_audit sampleHash [sampleToken] 5 reqIssueWrite (some "g") none (by decide)).1
    (by decide)

/-- C4 (amended): on `/repos/{owner}/{name}/check-runs[...]` the lookup
returns `checks`/`read` for GET and `checks`/`write` for POST; on
`/repos/{owner}/{name}/check-suites[...]` it returns `checks`/`read` for
GET, but POST on `check-suites` matches no rule and yields `("", "")`
(the table has no write rule for check-suites, so such a request is
forwarded without a scope check). Paths are characterised by their
`/`-split segments; the optional remainder is any newline-free tail, as
matched by the Go pattern `(/.*)?$`. -/
theorem endpoint_scope_checks (p1 p2 o1 n1 o2 n2 : String) (r1 r2 : List String)
    (ho1 : o1 ≠ "") (hn1 : n1 ≠ "") (hr1 : noNewline r1 = true)
    (h1 : splitAll p1 '/' = "" :: "repos" :: o1 :: n1 :: "check-runs" :: r1)
    (ho2 : o2 ≠ "") (hn2 : n2 ≠ "") (hr2 : noNewline r2 = true)
    (h2 : splitAll p2 '/' = "" :: "repos" :: o2 :: n2 :: "check-suites" :: r2) :
    EndpointScope "GET" p1 = ("checks", "read")
    ∧ EndpointScope "POST" p1 = ("checks", "write")
    ∧ EndpointScope "GET" p2 = ("checks", "read")
    ∧ EndpointScope "POST" p2 = ("", "") := by
  refine ⟨?_, ?_, ?_, ?_⟩ <;>
    simp +decide [EndpointScope, rules, repoSegs, firstRule, matchPath, h1, h2,
      matchSegsList, matchSeg, matchTail, isNumSeg, ho1, hn1, hr1, ho2, hn2, hr2]

/-- C4 witness: the lookup theorem applied to concrete check-runs and
check-suites paths. -/
theorem endpoint_scope_checks_witness :
    EndpointScope "GET" "/repos/acme/widget/check-runs" = ("checks", "read")
    ∧ EndpointScope "POST" "/repos/acme/widget/check-runs" = ("checks", "write")
    ∧ EndpointScope "GET" "/repos/acme/widget/check-suites" = ("checks", "read")
    ∧ EndpointScope "POST" "/repos/acme/widget/check-suites" = ("", "") :=
  endpoint_scope_checks "/repos/acme/widget/check-runs" "/repos/acme/widget/check-suites"
    "acme" "widget" "acme" "widget" [] []
    (by decide) (by decide) (by decide) (by decide)
    (by decide) (by decide) (by decide) (by decide)

/-- C4 counterexample: POST on a check-suites path does not map to
`checks`/`write` — it matches no rule at all. -/
theorem endpoint_scope_check_suites_cex :
    EndpointScope "POST" "/repos/acme/widget/check-suites" ≠ ("checks", "write")
    ∧ EndpointScope "POST" "/repos/acme/widget/check-suites" = ("", "") := by
  refine ⟨by decide, by decide⟩

end Ghp
